import Mathlib

/-!
# Verification of the pol lazy scope-resolution and streaming evaluation engine

Shallow embedding of `src/pol/pol.py` (the `pol` function and its helpers:
`set_scope`, `table_scoped`, `RecordScoped`, `UserError`, the `global_dict`
construction and the final orchestration at lines 184-198).

External collaborators (argument parsing, the concrete expression evaluator,
the tokenizer, the output renderers) are abstracted exactly as the code uses
them: a user program is modelled by the ordered list of environment bindings
it reads in one evaluation round plus a computation from the observed data to
a value or a raised exception.  Bindings accessed through the environment are
`LazyItem`s; the `LazyItem`/`LazyItemDict` machinery lives in `util.py`, which
is not part of the shown source, so its access-observer dispatch is modelled
from the spec (LazyValue contract: the access-observer fires first,
unconditionally, on every access; then the producer runs).
-/

/-- Scope state of the arbiter, `scope` in `pol` (line 140): starts
`'undecided'`, may become `'record'` or `'table'`. -/
inductive Scope
  | undecided
  | record
  | table
deriving DecidableEq

/-- Exceptions that drive the engine's control flow.
`noMoreRecords` is `NoMoreRecords` (a `StopIteration` subclass, line 34);
`mixedScope` is the `RuntimeError('Cannot access both record scoped and table
scoped variables')` raised by `set_scope` (line 145), which the spec calls
MixedScopeError; `user msg` is any other exception raised by the user
expression, carrying its message. -/
inductive Exn
  | noMoreRecords
  | mixedScope
  | user (msg : String)
deriving DecidableEq

/-- The arbiter `set_scope` (lines 142-146): raise iff the new scope differs from a
scope that is already locked (non-undecided); otherwise assign the new
scope. -/
def set_scope (scope newscope : Scope) : Except Exn Scope :=
  if scope ≠ newscope ∧ scope ≠ .undecided then .error .mixedScope
  else .ok newscope

/-- The scope tag a binding's access-observer reports: `table_scoped`
bindings call `set_scope('table')`, the `RecordScoped` cursor calls
`set_scope('record')`. -/
inductive BTag
  | record
  | table
deriving DecidableEq

def BTag.toScope : BTag → Scope
  | .record => .record
  | .table => .table

/-- The names bound in `global_dict` (lines 157-182). -/
inductive Name
  | records
  | lines
  | file
  | contents
  | df
  | record
  | fields
  | line
  | filename
  | remod
  | pdmod
  | npmod
  | headerB
  | printerB
  | other
deriving DecidableEq, Fintype

/-- The scope tag wired to each binding in `global_dict` (lines 157-182):
`lines`, `records`, `file`, `contents`, `df` are built with `table_scoped`
(observer `set_scope('table')`); `record` and `fields` are the shared
`record_var` cursor (observer `set_scope('record')`); `line` is
`LazyItem(lambda: record_var().str)`, whose producer accesses `record_var`,
so reading it fires the record observer; all remaining bindings carry no
observer. -/
def tag : Name → Option BTag
  | .records => some .table
  | .lines => some .table
  | .file => some .table
  | .contents => some .table
  | .df => some .table
  | .record => some .record
  | .fields => some .record
  | .line => some .record
  | _ => none

/-- The record cursor (`RecordScoped`, lines 38-61): `cur` is `_val`
(none before the lazy first fetch), `remaining` is the part of the record
stream the cursor's iterator `_iter` has not yet produced. -/
structure Cursor (ρ : Type) where
  cur : Option ρ
  remaining : List ρ
deriving DecidableEq

/-- Reading the cursor (`record_var()`): after the observer has fired, return
the cached current record; only the very first read pulls a record from the
iterator (`_get_first_time`, lines 43-46), raising `NoMoreRecords` when the
stream is empty (`__next__`, lines 57-61). -/
def cursorGet (c : Cursor ρ) : Except Exn (ρ × Cursor ρ) :=
  match c.cur with
  | some r => .ok (r, c)
  | none =>
    match c.remaining with
    | [] => .error .noMoreRecords
    | r :: rest => .ok (r, ⟨some r, rest⟩)

/-- Advancing the cursor (`RecordScoped.__next__`, lines 51-61): fetch the
next record and make it current, raising `NoMoreRecords` on exhaustion. -/
def cursorAdvance (c : Cursor ρ) : Except Exn (ρ × Cursor ρ) :=
  match c.remaining with
  | [] => .error .noMoreRecords
  | r :: rest => .ok (r, ⟨some r, rest⟩)

/-- Mutable state visible to one evaluation round: the arbiter's scope and
the shared record cursor. -/
structure RState (ρ : Type) where
  scope : Scope
  cursor : Cursor ρ
deriving DecidableEq

/-- A printer value bound to `'printer'` in the environment. `isPrinter`
is `isinstance(v, Printer)` (line 195); `pid` distinguishes values so the
error can identify the offending one (line 197). `Printer.print_result`
itself lives in `ioformat.py` (not in the shown source); modelled from the
spec: every `Printer` instance provides the `print_result` capability. -/
structure PVal where
  isPrinter : Bool
  pid : Nat
deriving DecidableEq

/-- A user program, as the engine observes it through the external evaluator
(`prog.exec(global_dict)`): the ordered list of environment bindings one
round reads, a computation from the observed data (current record, whole
record table) to a value or a raised exception message, and the optional
reassignments of `printer` and `header` the expression performs. -/
structure UProg (ρ α : Type) where
  accesses : List Name
  compute : Option ρ → List ρ → Except String α
  assignPrinter : Option PVal
  assignHeader : Option String

/-- Run the binding reads of one round, in order, threading the scope and
cursor.  Returns the trace of scope tags whose observers fired (including
the firing that raises) and the outcome.  Per the LazyValue contract the
observer fires first, then the producer runs; so a record read fires
`set_scope('record')` before the first-fetch pull, and an untagged read
touches nothing. -/
def runAccesses (st : RState ρ) : List Name → List Scope × Except Exn (RState ρ)
  | [] => ([], .ok st)
  | n :: ns =>
    match tag n with
    | none => runAccesses st ns
    | some t =>
      match set_scope st.scope t.toScope with
      | .error e => ([t.toScope], .error e)
      | .ok s =>
        match t with
        | .table =>
          let out := runAccesses ⟨s, st.cursor⟩ ns
          (t.toScope :: out.1, out.2)
        | .record =>
          match cursorGet st.cursor with
          | .error e => ([t.toScope], .error e)
          | .ok rc =>
            let out := runAccesses ⟨s, rc.2⟩ ns
            (t.toScope :: out.1, out.2)

/-- One evaluation round (`prog.exec(global_dict)`): perform the reads,
then compute the value from the observed current record and table, mapping
a raised user exception to `Exn.user`. -/
def execRound (p : UProg ρ α) (st : RState ρ) (all : List ρ) :
    Except Exn (α × RState ρ) :=
  match (runAccesses st p.accesses).2 with
  | .error e => .error e
  | .ok st1 =>
    match p.compute st1.cursor.cur all with
    | .error msg => .error (.user msg)
    | .ok v => .ok (v, st1)

/-- The per-record tail of the lazy result sequence
(`(prog.exec(global_dict) for _ in record_var)`, line 192): repeatedly
advance the cursor, then re-run the round; `NoMoreRecords` from the advance
ends the sequence; any exception raised by a later round propagates raw to
the consumer (it is produced inside `print_result`, outside the engine's
`try`).  Returns the values produced and the escaping exception, if any.
A round with a current record never moves the cursor's iterator
(`cursorGet` hits the cached value), so the recursion follows the
remaining stream. -/
def runRounds (p : UProg ρ α) (all : List ρ) : List ρ → List α × Option Exn
  | [] => ([], none)
  | r :: rest =>
    match execRound p ⟨.record, ⟨some r, rest⟩⟩ all with
    | .error e => ([], some e)
    | .ok va =>
      let out := runRounds p all rest
      (va.1 :: out.1, out.2)

/-- The final result value handed to the printer: either the single
first-round value (scope table or undecided) or the lazy chain of the
first-round value with the per-record tail (scope record, line 192).
`tail` records an exception escaping while the printer consumes the
sequence. -/
inductive PolResult (α : Type)
  | single (v : α)
  | seq (first : α) (rest : List α) (tail : Option Exn)
deriving DecidableEq

/-- Observable outcome of one `pol` invocation (lines 184-198).
`noOutput`: round one raised `NoMoreRecords`, swallowed by `pass`, printer
never called.  `userError e`: round one raised `e`, wrapped at the boundary
as `UserError` (`raise UserError() from e`), printer never called.
`printerContractError v`: the value bound to `printer` after evaluation is
not a `Printer` instance; the `RuntimeError` of line 196 identifies `v`,
printer never called.  `printed pr r h`: `pr.print_result(r, header=h)` was
called exactly once. -/
inductive Outcome (α : Type)
  | noOutput
  | userError (e : Exn)
  | printerContractError (v : PVal)
  | printed (pr : PVal) (result : PolResult α) (header : Option String)
deriving DecidableEq

/-- Whether the outcome involved a `print_result` call. -/
def printerInvoked : Outcome α → Bool
  | .printed _ _ _ => true
  | _ => false

/-- Build the final result from the locked scope (lines 191-192). -/
def finalResult (p : UProg ρ α) (all : List ρ) (r0 : α) (st1 : RState ρ) :
    PolResult α :=
  if st1.scope = .record then
    let out := runRounds p all st1.cursor.remaining
    .seq r0 out.1 out.2
  else .single r0

/-- The engine orchestration (lines 184-198): run round one from the fresh
state; `NoMoreRecords` yields no output; any other exception is wrapped as
`UserError`; otherwise build the final result per the locked scope, look up
the binding now attached to `printer` (a user reassignment takes effect),
check `isinstance(printer, Printer)`, and call `print_result` once with the
result and the current `header` binding (initially `None`). -/
def pol (p : UProg ρ α) (all : List ρ) (printer0 : PVal) : Outcome α :=
  match execRound p ⟨.undecided, ⟨none, all⟩⟩ all with
  | .error .noMoreRecords => .noOutput
  | .error e => .userError e
  | .ok va =>
    let eff := p.assignPrinter.getD printer0
    if eff.isPrinter then
      .printed eff (finalResult p all va.1 va.2) p.assignHeader
    else .printerContractError eff




theorem BTag.toScope_ne_undecided (t : BTag) : t.toScope ≠ Scope.undecided := by
  cases t <;> simp [BTag.toScope]

theorem BTag.toScope_inj {s u : BTag} (h : s.toScope = u.toScope) : s = u := by
  cases s <;> cases u <;> simp_all [BTag.toScope]

theorem set_scope_same (s : Scope) : set_scope s s = .ok s := by
  simp [set_scope]

theorem set_scope_from_undecided (s : Scope) : set_scope .undecided s = .ok s := by
  simp [set_scope]

theorem set_scope_conflict (s t : Scope) (h1 : s ≠ t) (h2 : s ≠ .undecided) :
    set_scope s t = .error .mixedScope := by
  simp [set_scope, h1, h2]

/-- Once the arbiter is locked to the scope of tag `s`, a round whose trace
also contains the scope of a different tag `u` fails with the mixed-scope
error. -/
theorem runAccesses_locked_conflict (s u : BTag) (hsu : s ≠ u) :
    ∀ (ns : List Name) (st : RState ρ), st.scope = s.toScope →
      u.toScope ∈ (runAccesses st ns).1 →
      (runAccesses st ns).2 = .error .mixedScope := by
  intro ns
  induction ns with
  | nil =>
    intro st hs hm
    simp [runAccesses] at hm
  | cons n ns ih =>
    intro st hs hm
    cases ht : tag n with
    | none =>
      simp only [runAccesses, ht] at hm ⊢
      exact ih st hs hm
    | some t =>
      by_cases hts : t = s
      · subst hts
        cases t with
        | table =>
          simp only [runAccesses, ht, hs, set_scope_same, List.mem_cons] at hm ⊢
          rcases hm with hm | hm
          · exact absurd (BTag.toScope_inj hm).symm hsu
          · exact ih ⟨BTag.table.toScope, st.cursor⟩ rfl hm
        | record =>
          cases hcg : cursorGet st.cursor with
          | error e =>
            simp only [runAccesses, ht, hs, set_scope_same, hcg,
              List.mem_singleton] at hm
            exact absurd (BTag.toScope_inj hm).symm hsu
          | ok rc =>
            simp only [runAccesses, ht, hs, set_scope_same, hcg,
              List.mem_cons] at hm ⊢
            rcases hm with hm | hm
            · exact absurd (BTag.toScope_inj hm).symm hsu
            · exact ih ⟨BTag.record.toScope, rc.2⟩ rfl hm
      · have hconf : set_scope st.scope t.toScope = .error .mixedScope := by
          rw [hs]
          exact set_scope_conflict _ _ (fun h => hts (BTag.toScope_inj h).symm)
            (BTag.toScope_ne_undecided s)
        cases t <;> simp only [runAccesses, ht, hconf]

/-- A round starting from the undecided scope whose trace contains both the
table scope and the record scope fails with the mixed-scope error. -/
theorem runAccesses_both_scopes (ns : List Name) :
    ∀ (st : RState ρ), st.scope = .undecided →
      Scope.table ∈ (runAccesses st ns).1 →
      Scope.record ∈ (runAccesses st ns).1 →
      (runAccesses st ns).2 = .error .mixedScope := by
  induction ns with
  | nil =>
    intro st hs htab _
    simp [runAccesses] at htab
  | cons n ns ih =>
    intro st hs htab hrec
    cases ht : tag n with
    | none =>
      simp only [runAccesses, ht] at htab hrec ⊢
      exact ih st hs htab hrec
    | some t =>
      cases t with
      | table =>
        simp only [runAccesses, ht, hs, set_scope_from_undecided,
          List.mem_cons] at htab hrec ⊢
        rcases hrec with hrec | hrec
        · exact absurd hrec (by simp [BTag.toScope])
        · exact runAccesses_locked_conflict .table .record (by simp) ns
            ⟨BTag.table.toScope, st.cursor⟩ rfl hrec
      | record =>
        cases hcg : cursorGet st.cursor with
        | error e =>
          simp only [runAccesses, ht, hs, set_scope_from_undecided, hcg,
            List.mem_singleton] at htab
          exact absurd htab (by simp [BTag.toScope])
        | ok rc =>
          simp only [runAccesses, ht, hs, set_scope_from_undecided, hcg,
            List.mem_cons] at htab hrec ⊢
          rcases htab with htab | htab
          · exact absurd htab (by simp [BTag.toScope])
          · exact runAccesses_locked_conflict .record .table (by simp) ns
              ⟨BTag.record.toScope, rc.2⟩ rfl htab

/-- C1: if one evaluation round accesses both a table-scoped binding
(records, lines, file, contents, df) and a record-scoped binding (record,
fields, line), in either order, then `set_scope` raises the mixed-scope
error, the round is aborted (surfacing as a wrapped `UserError`), and the
printer is never invoked. -/
theorem mixed_scope_access_aborts_and_skips_printer
    (p : UProg ρ α) (all : List ρ) (printer0 : PVal)
    (htab : Scope.table ∈
      (runAccesses (⟨.undecided, ⟨none, all⟩⟩ : RState ρ) p.accesses).1)
    (hrec : Scope.record ∈
      (runAccesses (⟨.undecided, ⟨none, all⟩⟩ : RState ρ) p.accesses).1) :
    pol p all printer0 = .userError .mixedScope ∧
      printerInvoked (pol p all printer0) = false := by
  have h := runAccesses_both_scopes p.accesses ⟨.undecided, ⟨none, all⟩⟩ rfl htab hrec
  have hexec : execRound p (⟨.undecided, ⟨none, all⟩⟩ : RState ρ) all
      = .error .mixedScope := by
    rw [execRound, h]
  constructor
  · rw [pol, hexec]
  · rw [pol, hexec]
    rfl

theorem mixed_scope_access_witness :
    Scope.table ∈ (runAccesses (⟨.undecided, ⟨none, [0]⟩⟩ : RState Nat)
      [Name.records, Name.record]).1 ∧
    Scope.record ∈ (runAccesses (⟨.undecided, ⟨none, [0]⟩⟩ : RState Nat)
      [Name.records, Name.record]).1 ∧
    pol (⟨[Name.records, Name.record], (fun _ _ => .ok 0), none, none⟩ :
      UProg Nat Nat) [0] ⟨true, 0⟩ = .userError .mixedScope := by
  refine ⟨by decide, by decide, ?_⟩
  exact (mixed_scope_access_aborts_and_skips_printer
    ⟨[Name.records, Name.record], (fun _ _ => .ok 0), none, none⟩
    [0] ⟨true, 0⟩ (by decide) (by decide)).1

/-- In a round whose scope is already locked to record and whose cursor
holds a current record, binding reads that avoid table-scoped names leave
the round state unchanged. -/
theorem runAccesses_record_locked (ns : List Name) :
    ∀ (c : Cursor ρ) (r : ρ), c.cur = some r →
      (∀ n ∈ ns, tag n ≠ some .table) →
      (runAccesses (⟨.record, c⟩ : RState ρ) ns).2 = .ok ⟨.record, c⟩ := by
  induction ns with
  | nil => intro c r _ _; rfl
  | cons n ns ih =>
    intro c r hr htab
    cases ht : tag n with
    | none =>
      simp only [runAccesses, ht]
      exact ih c r hr (fun m hm => htab m (List.mem_cons_of_mem n hm))
    | some t =>
      cases t with
      | table => exact absurd ht (htab n (List.mem_cons_self n ns))
      | record =>
        have hcg : cursorGet c = .ok (r, c) := by simp [cursorGet, hr]
        simp only [runAccesses, ht, BTag.toScope, set_scope_same, hcg]
        exact ih c r hr (fun m hm => htab m (List.mem_cons_of_mem n hm))

/-- A first round over a nonempty record stream whose reads avoid
table-scoped names and touch at least one record-scoped name locks the
scope to record and leaves the cursor on the first record. -/
theorem runAccesses_locks_record (ns : List Name) :
    ∀ (r : ρ) (rest : List ρ),
      (∀ n ∈ ns, tag n ≠ some .table) →
      (∃ n ∈ ns, tag n = some .record) →
      (runAccesses (⟨.undecided, ⟨none, r :: rest⟩⟩ : RState ρ) ns).2
        = .ok ⟨.record, ⟨some r, rest⟩⟩ := by
  induction ns with
  | nil =>
    intro r rest _ hex
    simp at hex
  | cons n ns ih =>
    intro r rest htab hex
    cases ht : tag n with
    | none =>
      simp only [runAccesses, ht]
      refine ih r rest (fun m hm => htab m (List.mem_cons_of_mem n hm)) ?_
      rcases hex with ⟨m, hm, hmt⟩
      rcases List.mem_cons.mp hm with h | h
      · subst h
        rw [ht] at hmt
        cases hmt
      · exact ⟨m, h, hmt⟩
    | some t =>
      cases t with
      | table => exact absurd ht (htab n (List.mem_cons_self n ns))
      | record =>
        have hcg : cursorGet (⟨none, r :: rest⟩ : Cursor ρ)
            = .ok (r, ⟨some r, rest⟩) := rfl
        simp only [runAccesses, ht, BTag.toScope, set_scope_from_undecided, hcg]
        exact runAccesses_record_locked ns ⟨some r, rest⟩ r rfl
          (fun m hm => htab m (List.mem_cons_of_mem n hm))

/-- In record scope, the per-record tail evaluates the expression once per
remaining record, in stream order, and ends on exhaustion. -/
theorem runRounds_map (p : UProg ρ α) (f : ρ → α) (all : List ρ)
    (htab : ∀ n ∈ p.accesses, tag n ≠ some .table) :
    ∀ rem : List ρ, (∀ x ∈ rem, p.compute (some x) all = .ok (f x)) →
      runRounds p all rem = (rem.map f, none) := by
  intro rem
  induction rem with
  | nil => intro _; rfl
  | cons x rem ih =>
    intro hc
    have hacc := runAccesses_record_locked p.accesses ⟨some x, rem⟩ x rfl htab
    have hexec : execRound p ⟨.record, ⟨some x, rem⟩⟩ all
        = .ok (f x, ⟨.record, ⟨some x, rem⟩⟩) := by
      simp only [execRound, hacc, hc x (List.mem_cons_self x rem)]
    simp only [runRounds, hexec, List.map_cons,
      ih (fun y hy => hc y (List.mem_cons_of_mem x hy))]

/-- C2: for a nonempty input `r :: rest` and an expression whose first
round locks the scope to record (it reads a record-scoped binding and no
table-scoped one) and whose evaluation succeeds on every record, the final
result handed to the printer is the lazy sequence beginning with the first
round's value followed by one value per remaining record, in production
order, ending when the advance signals exhaustion. -/
theorem record_scope_fanout
    (p : UProg ρ α) (f : ρ → α) (r : ρ) (rest : List ρ) (printer0 : PVal)
    (htab : ∀ n ∈ p.accesses, tag n ≠ some .table)
    (hrec : ∃ n ∈ p.accesses, tag n = some .record)
    (hc : ∀ x ∈ r :: rest, p.compute (some x) (r :: rest) = .ok (f x))
    (hpr : (p.assignPrinter.getD printer0).isPrinter = true) :
    pol p (r :: rest) printer0
      = .printed (p.assignPrinter.getD printer0)
          (.seq (f r) (rest.map f) none) p.assignHeader := by
  have hacc := runAccesses_locks_record p.accesses r rest htab hrec
  have hexec : execRound p ⟨.undecided, ⟨none, r :: rest⟩⟩ (r :: rest)
      = .ok (f r, ⟨.record, ⟨some r, rest⟩⟩) := by
    simp only [execRound, hacc, hc r (List.mem_cons_self r rest)]
  have hrounds := runRounds_map p f (r :: rest) htab rest
    (fun y hy => hc y (List.mem_cons_of_mem r hy))
  simp only [pol, hexec, hpr, if_true, finalResult, hrounds]

theorem record_scope_fanout_witness :
    (∀ n ∈ [Name.record], tag n ≠ some BTag.table) ∧
    (∃ n ∈ [Name.record], tag n = some BTag.record) ∧
    pol (⟨[Name.record], (fun r _ => .ok (r.getD 0)), none, none⟩ :
        UProg Nat Nat) [7, 8, 9] ⟨true, 0⟩
      = .printed ⟨true, 0⟩ (.seq 7 [8, 9] none) none := by
  refine ⟨by decide, by decide, ?_⟩
  have h := record_scope_fanout
    (⟨[Name.record], (fun r _ => .ok (r.getD 0)), none, none⟩ : UProg Nat Nat)
    (fun x => x) 7 [8, 9] ⟨true, 0⟩
    (by decide) (⟨Name.record, by simp, rfl⟩)
    (by intro x hx; rfl) rfl
  simpa using h

/-- A round that reads no record-scoped binding can never fail and never
moves the cursor: it ends with the same cursor and a scope that is not
record (table if a table-scoped binding was read, otherwise unchanged). -/
theorem runAccesses_no_record (ns : List Name) :
    ∀ (st : RState ρ), st.scope ≠ .record →
      (∀ n ∈ ns, tag n ≠ some .record) →
      ∃ s, (runAccesses st ns).2 = .ok ⟨s, st.cursor⟩ ∧ s ≠ .record := by
  induction ns with
  | nil =>
    intro st hs _
    exact ⟨st.scope, rfl, hs⟩
  | cons n ns ih =>
    intro st hs hrec
    cases ht : tag n with
    | none =>
      simp only [runAccesses, ht]
      exact ih st hs (fun m hm => hrec m (List.mem_cons_of_mem n hm))
    | some t =>
      cases t with
      | record => exact absurd ht (hrec n (List.mem_cons_self n ns))
      | table =>
        have hset : set_scope st.scope BTag.table.toScope = .ok Scope.table := by
          cases hsc : st.scope with
          | undecided => exact set_scope_from_undecided _
          | record => exact absurd hsc hs
          | table => exact set_scope_same _
        simp only [runAccesses, ht, hset]
        obtain ⟨s, h1, h2⟩ := ih ⟨Scope.table, st.cursor⟩ (by simp)
          (fun m hm => hrec m (List.mem_cons_of_mem n hm))
        exact ⟨s, h1, h2⟩

/-- C3: an expression that reads no record-scoped binding (its evaluation
leaves the scope table-locked, or still undecided when it touched no tagged
binding at all) runs exactly one evaluation round: the value handed to the
printer is the single first-round result, with no per-record fan-out. -/
theorem table_or_undecided_single_round
    (p : UProg ρ α) (all : List ρ) (v : α) (printer0 : PVal)
    (hrec : ∀ n ∈ p.accesses, tag n ≠ some .record)
    (hc : p.compute none all = .ok v)
    (hpr : (p.assignPrinter.getD printer0).isPrinter = true) :
    pol p all printer0
      = .printed (p.assignPrinter.getD printer0) (.single v)
          p.assignHeader := by
  obtain ⟨s, hacc, hsne⟩ := runAccesses_no_record p.accesses
    (⟨.undecided, ⟨none, all⟩⟩ : RState ρ) (by simp) hrec
  have hexec : execRound p ⟨.undecided, ⟨none, all⟩⟩ all
      = .ok (v, ⟨s, ⟨none, all⟩⟩) := by
    simp only [execRound, hacc, hc]
  simp only [pol, hexec, hpr, if_true, finalResult, if_neg hsne]

theorem table_or_undecided_witness :
    (∀ n ∈ [Name.records], tag n ≠ some BTag.record) ∧
    pol (⟨[Name.records], (fun _ t => .ok t.length), none, none⟩ :
        UProg Nat Nat) [7, 8, 9] ⟨true, 0⟩
      = .printed ⟨true, 0⟩ (.single 3) none := by
  refine ⟨by decide, ?_⟩
  exact table_or_undecided_single_round
    (⟨[Name.records], (fun _ t => .ok t.length), none, none⟩ : UProg Nat Nat)
    [7, 8, 9] 3 ⟨true, 0⟩ (by decide) rfl rfl

/-- A first round over an empty record stream whose reads avoid
table-scoped names and try to read a record-scoped binding raises the
exhaustion condition. -/
theorem runAccesses_empty_record (ns : List Name) :
    (∀ n ∈ ns, tag n ≠ some .table) →
    (∃ n ∈ ns, tag n = some .record) →
    (runAccesses (⟨.undecided, ⟨none, ([] : List ρ)⟩⟩ : RState ρ) ns).2
      = .error .noMoreRecords := by
  induction ns with
  | nil =>
    intro _ hex
    simp at hex
  | cons n ns ih =>
    intro htab hex
    cases ht : tag n with
    | none =>
      simp only [runAccesses, ht]
      refine ih (fun m hm => htab m (List.mem_cons_of_mem n hm)) ?_
      rcases hex with ⟨m, hm, hmt⟩
      rcases List.mem_cons.mp hm with h | h
      · subst h
        rw [ht] at hmt
        cases hmt
      · exact ⟨m, h, hmt⟩
    | some t =>
      cases t with
      | table => exact absurd ht (htab n (List.mem_cons_self n ns))
      | record =>
        have hcg : cursorGet (⟨none, ([] : List ρ)⟩ : Cursor ρ)
            = .error .noMoreRecords := rfl
        simp only [runAccesses, ht, BTag.toScope, set_scope_from_undecided, hcg]

/-- C4: with zero input records, a record-scoped expression (no table reads,
at least one attempted record read) makes the round raise the exhaustion
condition, which the engine absorbs: the invocation produces no output, the
printer is never called, and no error surfaces. -/
theorem empty_input_record_scope_no_output
    (p : UProg ρ α) (printer0 : PVal)
    (htab : ∀ n ∈ p.accesses, tag n ≠ some .table)
    (hrec : ∃ n ∈ p.accesses, tag n = some .record) :
    pol p ([] : List ρ) printer0 = .noOutput ∧
      printerInvoked (pol p ([] : List ρ) printer0) = false := by
  have hacc := runAccesses_empty_record (ρ := ρ) p.accesses htab hrec
  have hexec : execRound p (⟨.undecided, ⟨none, []⟩⟩ : RState ρ) []
      = .error .noMoreRecords := by
    simp only [execRound, hacc]
  constructor
  · simp only [pol, hexec]
  · simp only [pol, hexec]
    rfl

theorem empty_input_witness :
    (∀ n ∈ [Name.line], tag n ≠ some BTag.table) ∧
    (∃ n ∈ [Name.line], tag n = some BTag.record) ∧
    pol (⟨[Name.line], (fun r _ => .ok (r.getD 0)), none, none⟩ :
      UProg Nat Nat) [] ⟨true, 0⟩ = .noOutput := by
  refine ⟨by decide, by decide, ?_⟩
  exact (empty_input_record_scope_no_output
    (⟨[Name.line], (fun r _ => .ok (r.getD 0)), none, none⟩ : UProg Nat Nat)
    ⟨true, 0⟩ (by decide) ⟨Name.line, by simp, rfl⟩).1

/-- C5 (counterexample): a failure raised in a later per-record round is
NOT wrapped as a `UserError` at the boundary: the first-round `try` has
already exited, the printer has been invoked with the lazy sequence, and
the raw exception escapes while `print_result` consumes it.  Concretely:
records `[1, 2]`, an expression that reads the record and divides-by-zero
on record `2`. -/
theorem later_round_error_not_wrapped_counterexample :
    pol (⟨[Name.record],
          (fun r _ => if r = some 1 then .ok 10 else .error "boom"),
          none, none⟩ : UProg Nat Nat) [1, 2] ⟨true, 0⟩
      = .printed ⟨true, 0⟩ (.seq 10 [] (some (.user "boom"))) none ∧
    pol (⟨[Name.record],
          (fun r _ => if r = some 1 then .ok 10 else .error "boom"),
          none, none⟩ : UProg Nat Nat) [1, 2] ⟨true, 0⟩
      ≠ .userError (.user "boom") := by
  constructor
  · rfl
  · decide

/-- C5 (amended): a failure other than exhaustion raised in the FIRST
evaluation round is caught once at the boundary, wrapped as `UserError`
with the cause carried, and surfaced as fatal; it is never treated as
end-of-data.  (Failures in subsequent per-record rounds escape unwrapped,
see the counterexample.) -/
theorem first_round_error_wrapped
    (p : UProg ρ α) (all : List ρ) (printer0 : PVal) (e : Exn)
    (hne : e ≠ .noMoreRecords)
    (h : execRound p (⟨.undecided, ⟨none, all⟩⟩ : RState ρ) all = .error e) :
    pol p all printer0 = .userError e := by
  cases e with
  | noMoreRecords => exact absurd rfl hne
  | mixedScope => simp only [pol, h]
  | user m => simp only [pol, h]

theorem first_round_error_wrapped_witness :
    (Exn.user "div" ≠ Exn.noMoreRecords) ∧
    pol (⟨[], (fun _ _ => .error "div"), none, none⟩ : UProg Nat Nat)
      [] ⟨true, 0⟩ = .userError (.user "div") := by
  refine ⟨by decide, ?_⟩
  exact first_round_error_wrapped
    (⟨[], (fun _ _ => .error "div"), none, none⟩ : UProg Nat Nat)
    [] ⟨true, 0⟩ (.user "div") (by decide) rfl

/-- Iterated `set_scope` calls, threading the scope state and stopping at
the first raise (on a raise the state does not change: the exception is
thrown before the assignment on line 146). -/
def runSetScopes : Scope → List BTag → Except Exn Scope
  | s, [] => .ok s
  | s, t :: ts =>
    match set_scope s t.toScope with
    | .error e => .error e
    | .ok s1 => runSetScopes s1 ts

/-- C6: the scope state is monotonic: from undecided a call locks to the
requested scope; a call with the already-locked scope is a no-op; a
conflicting call raises instead of transitioning; and once locked, any
sequence of further calls either leaves the scope exactly as locked or
raises the mixed-scope error — it never reaches a different scope. -/
theorem set_scope_monotonic :
    (∀ t : BTag, set_scope .undecided t.toScope = .ok t.toScope) ∧
    (∀ t : BTag, set_scope t.toScope t.toScope = .ok t.toScope) ∧
    (∀ s u : BTag, s ≠ u →
      set_scope s.toScope u.toScope = .error .mixedScope) ∧
    (∀ (t : BTag) (l : List BTag),
      runSetScopes t.toScope l = .ok t.toScope ∨
        runSetScopes t.toScope l = .error .mixedScope) := by
  refine ⟨fun t => set_scope_from_undecided _, fun t => set_scope_same _,
    ?_, ?_⟩
  · intro s u hsu
    exact set_scope_conflict _ _ (fun h => hsu (BTag.toScope_inj h))
      (BTag.toScope_ne_undecided s)
  · intro t l
    induction l with
    | nil => exact Or.inl rfl
    | cons u ts ih =>
      by_cases hut : u = t
      · subst hut
        simp only [runSetScopes, set_scope_same]
        exact ih
      · right
        have hconf : set_scope t.toScope u.toScope = .error .mixedScope :=
          set_scope_conflict _ _ (fun h => hut (BTag.toScope_inj h).symm)
            (BTag.toScope_ne_undecided t)
        simp only [runSetScopes, hconf]

theorem set_scope_monotonic_witness :
    set_scope BTag.record.toScope BTag.table.toScope
      = .error .mixedScope :=
  set_scope_monotonic.2.2.1 BTag.record BTag.table (by decide)

/-- Modelled from the spec: the Replayable Sequence (`LazySequence` in
`util.py` and its `RecordSequence` specialization in `record.py`, neither
part of the shown source; `gen_records` at lines 126-132 supplies its
one-pass producer).  Per spec section 4.2 it keeps a growable buffer of
already-produced elements in front of the remaining one-pass producer;
`pulls` counts how often the producer has been asked for an element. -/
structure LazySequence (ρ : Type) where
  buffer : List ρ
  producer : List ρ
  pulls : Nat
deriving DecidableEq

/-- Modelled from the spec: pull every remaining element from the producer,
appending each to the buffer and counting one pull per element. -/
def drainAux (buf : List ρ) (pulls : Nat) : List ρ → List ρ × LazySequence ρ
  | [] => ([], ⟨buf, [], pulls⟩)
  | x :: xs =>
    let out := drainAux (buf ++ [x]) (pulls + 1) xs
    (x :: out.1, out.2)

/-- Modelled from the spec: one full iteration from the start: replay the
buffer first, then resume the producer, each newly produced element being
appended to the buffer. -/
def iterateAll (s : LazySequence ρ) : List ρ × LazySequence ρ :=
  let out := drainAux s.buffer s.pulls s.producer
  (s.buffer ++ out.1, out.2)

theorem drainAux_eq (l : List ρ) :
    ∀ (buf : List ρ) (k : Nat),
      drainAux buf k l = (l, ⟨buf ++ l, [], k + l.length⟩) := by
  induction l with
  | nil =>
    intro buf k
    simp [drainAux]
  | cons x xs ih =>
    intro buf k
    simp only [drainAux, ih (buf ++ [x]) (k + 1), List.append_assoc,
      List.singleton_append, List.length_cons, Prod.mk.injEq,
      LazySequence.mk.injEq]
    refine ⟨trivial, trivial, trivial, ?_⟩
    omega

/-- C7: for a fresh Replayable Sequence over a one-pass producer of the
records `l`: a full traversal yields `l`, pulling the producer exactly once
per element; a second full traversal replays the identical records in the
same order without touching the producer again (the pull count stays at
`l.length`, not `2 * l.length`), and the state is unchanged by the second
traversal, so every further traversal replays identically as well. -/
theorem lazy_sequence_replay (l : List ρ) :
    (iterateAll (⟨[], l, 0⟩ : LazySequence ρ)).1 = l ∧
    (iterateAll (⟨[], l, 0⟩ : LazySequence ρ)).2.pulls = l.length ∧
    (iterateAll (iterateAll (⟨[], l, 0⟩ : LazySequence ρ)).2).1 = l ∧
    (iterateAll (iterateAll (⟨[], l, 0⟩ : LazySequence ρ)).2).2.pulls
      = l.length ∧
    (iterateAll (iterateAll (⟨[], l, 0⟩ : LazySequence ρ)).2).2
      = (iterateAll (⟨[], l, 0⟩ : LazySequence ρ)).2 := by
  have h1 : iterateAll (⟨[], l, 0⟩ : LazySequence ρ)
      = (l, ⟨l, [], l.length⟩) := by
    simp [iterateAll, drainAux_eq]
  have h2 : iterateAll (⟨l, [], l.length⟩ : LazySequence ρ)
      = (l, ⟨l, [], l.length⟩) := by
    simp [iterateAll, drainAux]
  rw [h1]
  simp [h2]

/-- C8: after a successful final evaluation round the engine looks up the
binding now attached to `printer` (a reassignment performed by the user
expression takes effect); exactly when that value is not a `Printer` the
engine raises the contract error identifying the offending value and emits
no output; otherwise its `print_result` is called exactly once with the
final result and the current `header` binding. -/
theorem printer_lookup_and_contract
    (p : UProg ρ α) (all : List ρ) (printer0 : PVal) (v : α) (st1 : RState ρ)
    (h : execRound p (⟨.undecided, ⟨none, all⟩⟩ : RState ρ) all
      = .ok (v, st1)) :
    ((p.assignPrinter.getD printer0).isPrinter = false →
      pol p all printer0
        = .printerContractError (p.assignPrinter.getD printer0)) ∧
    ((p.assignPrinter.getD printer0).isPrinter = true →
      pol p all printer0
        = .printed (p.assignPrinter.getD printer0)
            (finalResult p all v st1) p.assignHeader) := by
  constructor
  · intro hf
    simp only [pol, h, hf, Bool.false_eq_true, if_false]
  · intro ht
    simp only [pol, h, ht, if_true]

theorem printer_lookup_witness :
    execRound (⟨[], (fun _ _ => .ok 0), some ⟨false, 7⟩, none⟩ :
        UProg Nat Nat) ⟨.undecided, ⟨none, []⟩⟩ []
      = .ok (0, ⟨.undecided, ⟨none, []⟩⟩) ∧
    pol (⟨[], (fun _ _ => .ok 0), some ⟨false, 7⟩, none⟩ : UProg Nat Nat)
      [] ⟨true, 0⟩ = .printerContractError ⟨false, 7⟩ := by
  refine ⟨rfl, ?_⟩
  exact (printer_lookup_and_contract
    (⟨[], (fun _ _ => .ok 0), some ⟨false, 7⟩, none⟩ : UProg Nat Nat)
    [] ⟨true, 0⟩ 0 ⟨.undecided, ⟨none, []⟩⟩ rfl).1 rfl

/-- How a binding of `global_dict` obtains input data. -/
inductive InputAccess
  | viaReplay
  | direct
  | noInput
deriving DecidableEq

/-- Transcribed from the wiring of `global_dict` (lines 157-182):
`records` consumes `record_seq` itself, `lines` wraps
`(r.str for r in record_seq)`, and `df` materializes `record_seq` into a
dataframe (lines 158-159, 134-138) — all through the Replayable Sequence's
buffer; `record` and `fields` are `record_var`, built over `record_seq`
(line 152), and `line` reads `record_var` (line 166) — through the
Replayable Sequence as well; `file` and `contents` are
`lambda: get_contents(input_file)` (lines 161-162), and `get_contents`
(lines 29-31) re-opens the input path (or reads stdin) and reads the raw
stream directly, bypassing `record_seq`; the remaining bindings read no
input. -/
def inputAccess : Name → InputAccess
  | .records => .viaReplay
  | .lines => .viaReplay
  | .df => .viaReplay
  | .record => .viaReplay
  | .fields => .viaReplay
  | .line => .viaReplay
  | .file => .direct
  | .contents => .direct
  | _ => .noInput

/-- C9 (counterexample): the claim that every component other than the
Replayable Sequence reads input only through its replay buffer is false on
the code: the table-scoped bindings `file` and `contents` call
`get_contents`, which re-opens and reads the underlying input source
directly. -/
theorem contents_reads_input_directly :
    inputAccess .contents = .direct ∧ inputAccess .file = .direct ∧
      ¬ (∀ n : Name, inputAccess n ≠ .direct) :=
  ⟨rfl, rfl, fun h => h .contents rfl⟩

/-- C9 (amended): every binding other than `file` and `contents` reads
input only through the Replayable Sequence or reads no input at all; only
`file` and `contents` touch the underlying stream directly. -/
theorem non_contents_bindings_via_replay
    (n : Name) (h1 : n ≠ .file) (h2 : n ≠ .contents) :
    inputAccess n ≠ .direct := by
  cases n <;> simp_all [inputAccess]

theorem non_contents_bindings_witness :
    (Name.records ≠ Name.file) ∧ (Name.records ≠ Name.contents) ∧
      inputAccess .records ≠ .direct :=
  ⟨by decide, by decide,
    non_contents_bindings_via_replay .records (by decide) (by decide)⟩

/-- A Python exception as `UserError.formatted_tb` sees its `__cause__`:
the message and the traceback chain, modelled as the list of frames from
the outermost frame inwards; the empty list stands for a `None`
traceback. -/
structure PyExn where
  msg : String
  tb : List String
deriving DecidableEq

/-- The wrapper `UserError` (lines 64-73): wraps its `__cause__` (set by
`raise UserError() from e` at line 189); `none` models a `UserError`
without a cause. -/
structure UserError where
  cause : Option PyExn
deriving DecidableEq

/-- Model of `traceback.format_exception(cause, cause, tb)`: renders the
given frames followed by the cause's own message. -/
def formatException (msg : String) (frames : List String) : String :=
  String.join frames ++ msg

/-- The methods `UserError.formatted_tb` and `__str__` (lines 66-73): evaluate
`self.__cause__.__traceback__.tb_next.tb_next` and format the cause with
that trimmed traceback.  Each attribute access on `None` raises, so the
result is `none` (the formatting itself fails with an `AttributeError`)
when there is no cause, no traceback, or fewer than two frames; otherwise
the first two frames (the engine's own) are dropped and the cause's
message is rendered. -/
def formatted_tb (e : UserError) : Option String :=
  match e.cause with
  | none => none
  | some c =>
    match c.tb with
    | [] => none
    | _ :: rest =>
      match rest with
      | [] => none
      | _ :: rest2 => some (formatException c.msg rest2)

/-- C10: converting a `UserError` to its displayed string succeeds exactly
when the wrapped cause exists and carries a traceback at least two frames
deep; for any shorter traceback the formatting itself fails instead of
showing the cause's message. -/
theorem formatted_tb_requires_two_frames (e : UserError) :
    (formatted_tb e).isSome ↔
      ∃ c, e.cause = some c ∧ 2 ≤ c.tb.length := by
  obtain ⟨cause⟩ := e
  cases cause with
  | none => simp [formatted_tb]
  | some c =>
    obtain ⟨m, tb⟩ := c
    cases tb with
    | nil => simp [formatted_tb]
    | cons a rest =>
      cases rest with
      | nil => simp [formatted_tb]
      | cons b rest2 =>
        simp only [formatted_tb, Option.isSome_some, true_iff]
        exact ⟨⟨m, a :: b :: rest2⟩, rfl, by simp⟩

theorem formatted_tb_witness :
    (formatted_tb ⟨some ⟨"division by zero", ["frame1"]⟩⟩).isSome ↔
      ∃ c, (⟨some ⟨"division by zero", ["frame1"]⟩⟩ : UserError).cause
          = some c ∧ 2 ≤ c.tb.length :=
  formatted_tb_requires_two_frames ⟨some ⟨"division by zero", ["frame1"]⟩⟩
